import Mathlib

/-!
Shallow embedding of `src/ensemble/gradientboostingclassifier.py`
(class `GradientBoostingClassifier`) from the Ensemble-Pytorch repository.

Modelling conventions:
* A dense 2-D float tensor is a `Tensor`: a shape `(rows, cols)` together with
  a total entry function `ℕ → ℕ → ℝ` (entries outside the shape are irrelevant
  to every claim and every torch operation used by the source).
* Autograd tracking is made explicit: a `TTensor` couples a value tensor with
  the set `deps : Finset ℕ` of learner indices whose parameters sit in the
  autograd graph of that tensor.  Every differentiable torch op unions the
  dependency sets of its arguments; constants and integer label data have
  empty dependency sets.  Applying learner `i`'s module while gradient mode is
  enabled adds `i` to the set (its parameters require grad); under
  `torch.no_grad()` nothing is added.
* The external collaborators (the learner class, its constructor, the Adam
  optimizer, autograd's gradient values) are collected in an `Env` record of
  abstract functions; theorems quantify over every environment.
* Python dict lookups (`args["key"]`) are `Option` fields read through
  `Except`, so a missing key is a `KeyError`.
-/

namespace Ensemble

/-- A dense 2-D tensor: shape plus a total entry function. -/
@[ext]
structure Tensor where
  rows : ℕ
  cols : ℕ
  entry : ℕ → ℕ → ℝ

/-- `torch.zeros(r, c)`. -/
def Tensor.zeros (r c : ℕ) : Tensor :=
  ⟨r, c, fun _ _ => 0⟩

/-- Elementwise `+` (shapes agree in every use in the source; the left
operand's shape is kept, matching `t += u` on same-shaped tensors). -/
def Tensor.add (t u : Tensor) : Tensor :=
  ⟨t.rows, t.cols, fun i j => t.entry i j + u.entry i j⟩

/-- Scalar multiplication `c * t`. -/
def Tensor.smul (c : ℝ) (t : Tensor) : Tensor :=
  ⟨t.rows, t.cols, fun i j => c * t.entry i j⟩

/-- Elementwise `-`. -/
def Tensor.sub (t u : Tensor) : Tensor :=
  ⟨t.rows, t.cols, fun i j => t.entry i j - u.entry i j⟩

/-- `F.softmax(t, dim=1)`: row-wise softmax over the class dimension. -/
noncomputable def Tensor.softmax (t : Tensor) : Tensor :=
  ⟨t.rows, t.cols,
    fun i j => Real.exp (t.entry i j) / ∑ l ∈ Finset.range t.cols, Real.exp (t.entry i l)⟩

/-- `output.data.max(1)[1]` at row `i`: the index of the first maximal entry
of the row (the fold advances only on a strictly larger entry). -/
noncomputable def Tensor.argmaxRow (t : Tensor) (i : ℕ) : ℕ :=
  (List.range t.cols).foldl (fun best j => if t.entry i best < t.entry i j then j else best) 0

/-- A tensor together with the learner indices in its autograd graph. -/
@[ext]
structure TTensor where
  val : Tensor
  deps : Finset ℕ

/-- A fresh constant/leaf tensor: empty autograd graph. -/
def TTensor.const (t : Tensor) : TTensor :=
  ⟨t, ∅⟩

def TTensor.add (t u : TTensor) : TTensor :=
  ⟨t.val.add u.val, t.deps ∪ u.deps⟩

def TTensor.smul (c : ℝ) (t : TTensor) : TTensor :=
  ⟨Tensor.smul c t.val, t.deps⟩

def TTensor.sub (t u : TTensor) : TTensor :=
  ⟨t.val.sub u.val, t.deps ∪ u.deps⟩

noncomputable def TTensor.softmax (t : TTensor) : TTensor :=
  ⟨t.val.softmax, t.deps⟩

/-- An integer label batch `y` (already flattened by `y.view(-1)`):
its length and the class index of each example. -/
structure Labels where
  len : ℕ
  val : ℕ → ℕ

/-- The configuration dict `args`.  Every key the source reads is an
`Option`: `none` models an absent key, whose lookup raises `KeyError`. -/
structure Args where
  epochs : Option ℕ
  output_dim : Option ℕ
  log_interval : Option ℕ
  n_estimators : Option ℕ
  shrinkage_rate : Option ℝ
  cuda : Option Bool
  lr : Option ℝ
  weight_decay : Option ℝ

/-- `args["key"]`: a missing key raises `KeyError`. -/
def Args.lookup {β : Type} (key : String) : Option β → Except String β
  | none => .error ("KeyError: " ++ key)
  | some v => .ok v

/-- The external collaborators of the ensemble, abstracted:
`α` is the type of input batches, `P` the parameter state of one learner
module, `L` the type of `learner_args`. -/
structure Env (α P L : Type) where
  /-- `X.size()[0]`: the batch size of an input batch. -/
  bsize : α → ℕ
  /-- The learner module's forward function: parameters and an input batch
  give the output logits tensor (the learner class is fixed; only the
  per-instance parameters vary). -/
  run : P → α → Tensor
  /-- `learner_args.update({"output_dim": d})`. -/
  setOutputDim : L → ℕ → L
  /-- `learner(learner_args)`: the `i`-th constructor call returns a fresh,
  independently initialized parameter state (the index models the RNG draw). -/
  factory : ℕ → L → P
  /-- One `learner_optimizer.step()` of the Adam optimizer bound to a single
  learner: new parameters from old parameters and the accumulated gradient. -/
  adamStep : P → ℝ → P
  /-- Autograd's `loss.backward()` gradient contribution accumulated into the
  `.grad` buffers of learner `j`'s parameters, abstracted to one scalar per
  learner. -/
  gradContrib : ℕ → ℝ

/-- The ensemble object: scalar configuration fields plus the
`nn.ModuleList` of learners, identified with the list of their parameter
states (the module behavior itself is the shared `Env.run`). -/
structure GradientBoostingClassifier (P : Type) where
  epochs : ℕ
  output_dim : ℕ
  log_interval : ℕ
  n_estimators : ℕ
  shrinkage_rate : ℝ
  learners : List P

section Model

variable {α P L : Type} [Inhabited P]

/-- `GradientBoostingClassifier.__init__`: reads each configuration key in
source order (each read can raise `KeyError`), injects `output_dim` into
`learner_args`, then eagerly constructs `n_estimators` learner instances.
No value validation is performed.  (`.to(device)` is the identity in this
model; device placement is outside every claim's scope.) -/
def initGBC (E : Env α P L) (args : Args) (learner_args : L) :
    Except String (GradientBoostingClassifier P) := do
  let epochs ← Args.lookup "epochs" args.epochs
  let output_dim ← Args.lookup "output_dim" args.output_dim
  let log_interval ← Args.lookup "log_interval" args.log_interval
  let n_estimators ← Args.lookup "n_estimators" args.n_estimators
  let shrinkage_rate ← Args.lookup "shrinkage_rate" args.shrinkage_rate
  let _cuda ← Args.lookup "cuda" args.cuda
  let largs := E.setOutputDim learner_args output_dim
  .ok ⟨epochs, output_dim, log_interval, n_estimators, shrinkage_rate,
        (List.range n_estimators).map (fun i => E.factory i largs)⟩

/-- `learner(X)` for the module at index `i` with parameters `p`, in ambient
gradient mode `gm`: when gradient mode is on, the output's autograd graph
contains learner `i`'s parameters. -/
def applyLearner (E : Env α P L) (gm : Bool) (i : ℕ) (p : P) (X : α) : TTensor :=
  ⟨E.run p X, if gm then {i} else ∅⟩

/-- `forward` / `predict`: start from `torch.zeros(batch_size, output_dim)`
and accumulate `shrinkage_rate * learner(X)` over the learners in index
order.  `gm` is the ambient gradient mode. -/
def forward (E : Env α P L) (M : GradientBoostingClassifier P) (gm : Bool) (X : α) : TTensor :=
  let y_pred : TTensor := .const (Tensor.zeros (E.bsize X) M.output_dim)
  M.learners.enum.foldl
    (fun acc ip => acc.add (TTensor.smul M.shrinkage_rate (applyLearner E gm ip.1 ip.2 X)))
    y_pred

/-- `_onehot_coding`: a zeroed `(y.len, output_dim)` float tensor with a `1`
scattered into column `y[i]` of each row `i`. -/
def onehot_coding (output_dim : ℕ) (y : Labels) : Tensor :=
  ⟨y.len, output_dim, fun i j => if j = y.val i then 1 else 0⟩

/-- `_pseudo_residual`: one-hot labels minus the row-wise softmax of the
accumulated logits of the learners with index `< learner_idx` (each scaled by
`shrinkage_rate`); the accumulator starts from `torch.zeros_like(y_onehot)`.
The earlier learners are applied in the ambient gradient mode `gm` (the
source wraps nothing in `torch.no_grad()`). -/
noncomputable def pseudo_residual (E : Env α P L) (M : GradientBoostingClassifier P)
    (gm : Bool) (X : α) (y : Labels) (learner_idx : ℕ) : TTensor :=
  let y_onehot : TTensor := .const (onehot_coding M.output_dim y)
  let output : TTensor := .const (Tensor.zeros y.len M.output_dim)
  if learner_idx = 0 then
    y_onehot.sub output.softmax
  else
    let output := (List.range learner_idx).foldl
      (fun acc idx =>
        acc.add (TTensor.smul M.shrinkage_rate
          (applyLearner E gm idx (M.learners.getD idx default) X)))
      output
    y_onehot.sub output.softmax

end Model

/-- `nn.MSELoss(reduction="sum")` applied to two same-shaped tracked tensors:
the scalar value is the sum of squared entry differences over the left
operand's shape; the autograd graph is the union of the arguments'. -/
noncomputable def mseLossSum (t u : TTensor) : ℝ × Finset ℕ :=
  (∑ i ∈ Finset.range t.val.rows, ∑ j ∈ Finset.range t.val.cols,
      (t.val.entry i j - u.val.entry i j) ^ 2,
    t.deps ∪ u.deps)

/-- The mutable state threaded through `fit`: the ensemble (its learner
parameters are updated in place) and the `.grad` accumulator of each
learner's parameters (abstracted to one scalar per learner; `0` is the
initial/zeroed buffer). -/
structure TrainState (P : Type) where
  model : GradientBoostingClassifier P
  grads : ℕ → ℝ

section Train

variable {α P L : Type} [Inhabited P]

/-- One batch iteration of the inner loop of `fit` while learner `k` is the
active learner: compute the pseudo-residual (gradient mode is on — `fit`
runs under `self.train()` with no `no_grad` scope), run learner `k` forward,
form the sum-reduction MSE loss, then `zero_grad()` (clears only learner
`k`'s buffers, the ones the optimizer is bound to), `loss.backward()`
(accumulates a gradient contribution into every learner in the loss's
autograd graph), and `optimizer.step()` (updates only learner `k`'s
parameters, from its gradient buffer). -/
noncomputable def trainStep (E : Env α P L) (k : ℕ) (s : TrainState P)
    (batch : α × Labels) : TrainState P :=
  let y_residual := pseudo_residual E s.model true batch.1 batch.2 k
  let output := applyLearner E true k (s.model.learners.getD k default) batch.1
  let loss := mseLossSum output y_residual
  let g1 := Function.update s.grads k 0
  let g2 := fun j => if j ∈ loss.2 then g1 j + E.gradContrib j else g1 j
  let learners' := s.model.learners.set k
    (E.adamStep (s.model.learners.getD k default) (g2 k))
  ⟨{ s.model with learners := learners' }, g2⟩

/-- The training phase of learner `k` in `fit`: a fresh Adam optimizer is
bound to learner `k`'s parameters, then every epoch replays every batch of
the training loader through `trainStep`. -/
noncomputable def trainLearner (E : Env α P L) (batches : List (α × Labels)) (k : ℕ)
    (s : TrainState P) : TrainState P :=
  (List.range s.model.epochs).foldl
    (fun s' _ => batches.foldl (trainStep E k) s') s

/-- `fit`: train the learners strictly sequentially, in ascending index
order. -/
noncomputable def fit (E : Env α P L) (batches : List (α × Labels))
    (s : TrainState P) : TrainState P :=
  (List.range s.model.learners.length).foldl
    (fun s' k => trainLearner E batches k s') s

/-- A test data loader: its finite batch list and `len(loader.dataset)`. -/
structure DataLoader (α : Type) where
  batches : List (α × Labels)
  dataset_len : ℕ

/-- Modelled from the spec: `predict` is defined by the missing `BaseModule`
class (`src/ensemble/basemodule.py` is imported by the source but is not
among the sources); spec §4.2 "Prediction (`forward`/`predict`)" identifies
it with `forward`. -/
def predict (E : Env α P L) (M : GradientBoostingClassifier P) (gm : Bool) (X : α) : TTensor :=
  forward E M gm X

/-- `evaluate`: under `self.eval()` and `torch.no_grad()` (gradient mode
off for the whole pass), accumulate over the test batches the number of rows
whose predicted arg-max class equals the true label, and return the printed
accuracy `100 * correct / len(test_loader.dataset)`.  (The Python function
returns `None`; the returned real is the accuracy value it prints.) -/
noncomputable def evaluate (E : Env α P L) (M : GradientBoostingClassifier P)
    (tl : DataLoader α) : ℝ :=
  let correct : ℝ := tl.batches.foldl
    (fun c b =>
      let output := predict E M false b.1
      c + ∑ i ∈ Finset.range b.2.len,
        if output.val.argmaxRow i = b.2.val i then (1 : ℝ) else 0)
    0
  100 * correct / tl.dataset_len

end Train

/-! ## A concrete instantiation (used for witnesses and counterexamples)

A tiny environment: inputs are `Unit` batches of batch-size 1, a learner's
parameter state is a single real, `learner_args` is `Unit`; each learner
outputs a constant `(1, 2)` tensor filled with its parameter; autograd's
per-learner gradient contribution is `1`. -/

noncomputable def cexEnv : Env Unit ℝ Unit where
  bsize := fun _ => 1
  run := fun p _ => ⟨1, 2, fun _ _ => p⟩
  setOutputDim := fun l _ => l
  factory := fun _ _ => 0
  adamStep := fun p g => p - g
  gradContrib := fun _ => 1

/-- A concrete ensemble: 1 epoch, 2 classes, 2 learners, shrinkage 1. -/
noncomputable def cexModel : GradientBoostingClassifier ℝ :=
  ⟨1, 2, 1, 2, 1, [0, 0]⟩

/-- A concrete label batch: one example with class 0. -/
def cexLabels : Labels :=
  ⟨1, fun _ => 0⟩

/-- A concrete training state: the ensemble above with zeroed gradients. -/
noncomputable def cexState : TrainState ℝ :=
  ⟨cexModel, fun _ => 0⟩

/-- A concrete training batch. -/
def cexBatch : Unit × Labels :=
  ((), cexLabels)

/-- A concrete configuration dict with every key present but
`n_estimators = 0` and `output_dim = 0`. -/
noncomputable def cexArgs : Args :=
  ⟨some 1, some 0, some 1, some 0, some 1, some false, some 1, some 0⟩

/-! ## Helper lemmas -/

lemma TTensor.add_entry (t u : TTensor) (b j : ℕ) :
    (t.add u).val.entry b j = t.val.entry b j + u.val.entry b j := rfl

lemma TTensor.add_rows (t u : TTensor) : (t.add u).val.rows = t.val.rows := rfl

lemma TTensor.add_cols (t u : TTensor) : (t.add u).val.cols = t.val.cols := rfl

lemma TTensor.add_deps (t u : TTensor) : (t.add u).deps = t.deps ∪ u.deps := rfl

lemma TTensor.smul_entry (c : ℝ) (t : TTensor) (b j : ℕ) :
    (TTensor.smul c t).val.entry b j = c * t.val.entry b j := rfl

lemma TTensor.smul_deps (c : ℝ) (t : TTensor) : (TTensor.smul c t).deps = t.deps := rfl

lemma TTensor.sub_deps (t u : TTensor) : (t.sub u).deps = t.deps ∪ u.deps := rfl

lemma TTensor.softmax_deps (t : TTensor) : t.softmax.deps = t.deps := rfl

lemma TTensor.const_deps (t : Tensor) : (TTensor.const t).deps = ∅ := rfl

lemma mseLossSum_deps (t u : TTensor) : (mseLossSum t u).2 = t.deps ∪ u.deps := rfl

section Lemmas

variable {α P L : Type} [Inhabited P]

lemma applyLearner_entry (E : Env α P L) (gm : Bool) (i : ℕ) (p : P) (X : α) (b j : ℕ) :
    (applyLearner E gm i p X).val.entry b j = (E.run p X).entry b j := rfl

lemma applyLearner_deps (E : Env α P L) (gm : Bool) (i : ℕ) (p : P) (X : α) :
    (applyLearner E gm i p X).deps = if gm then {i} else ∅ := rfl

lemma enumFold_entry (E : Env α P L) (c : ℝ) (gm : Bool) (X : α)
    (l : List (ℕ × P)) (init : TTensor) (b j : ℕ) :
    (l.foldl (fun acc ip => acc.add (TTensor.smul c (applyLearner E gm ip.1 ip.2 X)))
        init).val.entry b j
      = init.val.entry b j + (l.map (fun ip => c * (E.run ip.2 X).entry b j)).sum := by
  induction l generalizing init with
  | nil => simp
  | cons hd tl ih =>
      rw [List.foldl_cons, List.map_cons, List.sum_cons, ih,
        TTensor.add_entry, TTensor.smul_entry, applyLearner_entry]
      ring

lemma enumFold_shape (E : Env α P L) (c : ℝ) (gm : Bool) (X : α)
    (l : List (ℕ × P)) (init : TTensor) :
    (l.foldl (fun acc ip => acc.add (TTensor.smul c (applyLearner E gm ip.1 ip.2 X)))
        init).val.rows = init.val.rows ∧
    (l.foldl (fun acc ip => acc.add (TTensor.smul c (applyLearner E gm ip.1 ip.2 X)))
        init).val.cols = init.val.cols := by
  induction l generalizing init with
  | nil => exact ⟨rfl, rfl⟩
  | cons hd tl ih =>
      rw [List.foldl_cons]
      exact ⟨(ih _).1.trans (TTensor.add_rows _ _), (ih _).2.trans (TTensor.add_cols _ _)⟩

lemma rangeFold_entry (E : Env α P L) (M : GradientBoostingClassifier P)
    (gm : Bool) (X : α) (k : ℕ) (init : TTensor) (b j : ℕ) :
    ((List.range k).foldl
        (fun acc idx => acc.add (TTensor.smul M.shrinkage_rate
          (applyLearner E gm idx (M.learners.getD idx default) X))) init).val.entry b j
      = init.val.entry b j
        + ∑ i ∈ Finset.range k,
            M.shrinkage_rate * (E.run (M.learners.getD i default) X).entry b j := by
  induction k with
  | zero => simp
  | succ n ih =>
      rw [List.range_succ, List.foldl_append, Finset.sum_range_succ, List.foldl_cons,
        List.foldl_nil, TTensor.add_entry, TTensor.smul_entry, applyLearner_entry, ih]
      ring

lemma rangeFold_shape (E : Env α P L) (M : GradientBoostingClassifier P)
    (gm : Bool) (X : α) (k : ℕ) (init : TTensor) :
    ((List.range k).foldl
        (fun acc idx => acc.add (TTensor.smul M.shrinkage_rate
          (applyLearner E gm idx (M.learners.getD idx default) X))) init).val.rows
        = init.val.rows ∧
    ((List.range k).foldl
        (fun acc idx => acc.add (TTensor.smul M.shrinkage_rate
          (applyLearner E gm idx (M.learners.getD idx default) X))) init).val.cols
        = init.val.cols := by
  induction k with
  | zero => exact ⟨rfl, rfl⟩
  | succ n ih =>
      rw [List.range_succ, List.foldl_append, List.foldl_cons, List.foldl_nil]
      exact ⟨(TTensor.add_rows _ _).trans ih.1, (TTensor.add_cols _ _).trans ih.2⟩

lemma rangeFold_deps (E : Env α P L) (M : GradientBoostingClassifier P)
    (X : α) (k : ℕ) (init : TTensor) :
    ((List.range k).foldl
        (fun acc idx => acc.add (TTensor.smul M.shrinkage_rate
          (applyLearner E true idx (M.learners.getD idx default) X))) init).deps
      = init.deps ∪ Finset.range k := by
  induction k with
  | zero => simp
  | succ n ih =>
      rw [List.range_succ, List.foldl_append, List.foldl_cons, List.foldl_nil,
        TTensor.add_deps, TTensor.smul_deps, applyLearner_deps, if_pos rfl,
        ih, Finset.range_succ]
      ext x
      simp only [Finset.mem_union, Finset.mem_insert, Finset.mem_range, Finset.mem_singleton]
      tauto

/-- The value of `_pseudo_residual` at index `k` is the one-hot tensor minus
the softmax of the `(y.len, output_dim)` tensor of accumulated scaled logits
of learners `0 .. k-1` (the `k = 0` zero tensor being the empty sum). -/
lemma pseudo_residual_val_eq (E : Env α P L) (M : GradientBoostingClassifier P)
    (gm : Bool) (X : α) (y : Labels) (k : ℕ) :
    (pseudo_residual E M gm X y k).val
      = (onehot_coding M.output_dim y).sub
          (Tensor.softmax ⟨y.len, M.output_dim,
            fun r c => ∑ i ∈ Finset.range k,
              M.shrinkage_rate * (E.run (M.learners.getD i default) X).entry r c⟩) := by
  cases k with
  | zero =>
      show (onehot_coding M.output_dim y).sub (Tensor.zeros y.len M.output_dim).softmax = _
      have h0 : Tensor.zeros y.len M.output_dim
          = (⟨y.len, M.output_dim,
              fun r c => ∑ i ∈ Finset.range 0,
                M.shrinkage_rate * (E.run (M.learners.getD i default) X).entry r c⟩ : Tensor) := by
        refine Tensor.ext rfl rfl ?_
        funext r c
        simp [Tensor.zeros]
      rw [h0]
  | succ n =>
      show (onehot_coding M.output_dim y).sub
          (((List.range (n + 1)).foldl
              (fun acc idx => acc.add (TTensor.smul M.shrinkage_rate
                (applyLearner E gm idx (M.learners.getD idx default) X)))
              (TTensor.const (Tensor.zeros y.len M.output_dim))).val.softmax) = _
      have hfold : ((List.range (n + 1)).foldl
              (fun acc idx => acc.add (TTensor.smul M.shrinkage_rate
                (applyLearner E gm idx (M.learners.getD idx default) X)))
              (TTensor.const (Tensor.zeros y.len M.output_dim))).val
          = (⟨y.len, M.output_dim,
              fun r c => ∑ i ∈ Finset.range (n + 1),
                M.shrinkage_rate * (E.run (M.learners.getD i default) X).entry r c⟩ : Tensor) := by
        refine Tensor.ext ?_ ?_ ?_
        · exact (rangeFold_shape E M gm X (n + 1) _).1
        · exact (rangeFold_shape E M gm X (n + 1) _).2
        · funext r c
          rw [rangeFold_entry]
          simp [TTensor.const, Tensor.zeros]
      rw [hfold]

lemma softmax_rowsum (t : Tensor) (d : ℕ) (hcd : t.cols = d) (hd : 0 < d) (b : ℕ) :
    ∑ j ∈ Finset.range d, (Tensor.softmax t).entry b j = 1 := by
  subst hcd
  have hS : 0 < ∑ l ∈ Finset.range t.cols, Real.exp (t.entry b l) :=
    Finset.sum_pos (fun l _ => Real.exp_pos _)
      (by simpa [Finset.nonempty_range_iff] using hd.ne')
  simp only [Tensor.softmax]
  rw [← Finset.sum_div, div_self (ne_of_gt hS)]

lemma onehot_rowsum (d : ℕ) (y : Labels) (b : ℕ) (hb : y.val b < d) :
    ∑ j ∈ Finset.range d, (onehot_coding d y).entry b j = 1 := by
  simp only [onehot_coding]
  rw [Finset.sum_ite_eq' (Finset.range d) (y.val b) (fun _ => (1 : ℝ))]
  simp [hb]

/-- In gradient mode, the autograd graph of `_pseudo_residual (X, y, k)`
contains exactly the learners with index `< k`: their forward passes happen
with gradient tracking enabled. -/
lemma pseudo_residual_deps (E : Env α P L) (M : GradientBoostingClassifier P)
    (X : α) (y : Labels) (k : ℕ) :
    (pseudo_residual E M true X y k).deps = Finset.range k := by
  cases k with
  | zero =>
      show ((TTensor.const (onehot_coding M.output_dim y)).sub
        (TTensor.softmax (TTensor.const (Tensor.zeros y.len M.output_dim)))).deps = _
      rw [TTensor.sub_deps, TTensor.softmax_deps, TTensor.const_deps, TTensor.const_deps]
      simp
  | succ n =>
      show ((TTensor.const (onehot_coding M.output_dim y)).sub
          (TTensor.softmax ((List.range (n + 1)).foldl
            (fun acc idx => acc.add (TTensor.smul M.shrinkage_rate
              (applyLearner E true idx (M.learners.getD idx default) X)))
            (TTensor.const (Tensor.zeros y.len M.output_dim))))).deps = _
      rw [TTensor.sub_deps, TTensor.softmax_deps, TTensor.const_deps, rangeFold_deps,
        TTensor.const_deps]
      simp

lemma enumFold_deps_false (E : Env α P L) (c : ℝ) (X : α)
    (l : List (ℕ × P)) (init : TTensor) :
    (l.foldl (fun acc ip => acc.add (TTensor.smul c (applyLearner E false ip.1 ip.2 X)))
        init).deps = init.deps := by
  induction l generalizing init with
  | nil => rfl
  | cons hd tl ih =>
      rw [List.foldl_cons, ih, TTensor.add_deps, TTensor.smul_deps, applyLearner_deps]
      simp

/-- Under `torch.no_grad()` (gradient mode off) the prediction has an empty
autograd graph: nothing can be backpropagated through it. -/
lemma forward_deps_false (E : Env α P L) (M : GradientBoostingClassifier P) (X : α) :
    (forward E M false X).deps = ∅ := by
  unfold forward
  rw [enumFold_deps_false]
  rfl

lemma evalFold_eq (E : Env α P L) (M : GradientBoostingClassifier P)
    (l : List (α × Labels)) : ∀ c0 : ℝ,
    l.foldl (fun c b => c + ∑ i ∈ Finset.range b.2.len,
        if (predict E M false b.1).val.argmaxRow i = b.2.val i then (1 : ℝ) else 0) c0
      = c0 + (l.map (fun b => ∑ i ∈ Finset.range b.2.len,
          if (predict E M false b.1).val.argmaxRow i = b.2.val i then (1 : ℝ) else 0)).sum := by
  induction l with
  | nil => intro c0; simp
  | cons hd tl ih =>
      intro c0
      rw [List.foldl_cons, List.map_cons, List.sum_cons, ih]
      ring

/-- `optimizer.step()` in `trainStep` replaces the parameters of the active
learner `k` in place and touches no other position of the learner list. -/
lemma trainStep_model_learners (E : Env α P L) (k : ℕ) (s : TrainState P)
    (b : α × Labels) :
    ∃ p, (trainStep E k s b).model.learners = s.model.learners.set k p :=
  ⟨_, rfl⟩

lemma trainStep_learners_get (E : Env α P L) (k : ℕ) (s : TrainState P)
    (b : α × Labels) (j : ℕ) (hj : j ≠ k) :
    (trainStep E k s b).model.learners[j]? = s.model.learners[j]? := by
  obtain ⟨p, hp⟩ := trainStep_model_learners E k s b
  rw [hp]
  exact List.getElem?_set_ne (by omega)

lemma trainStep_length (E : Env α P L) (k : ℕ) (s : TrainState P) (b : α × Labels) :
    (trainStep E k s b).model.learners.length = s.model.learners.length := by
  obtain ⟨p, hp⟩ := trainStep_model_learners E k s b
  rw [hp, List.length_set]

lemma batchesFold_frame (E : Env α P L) (k : ℕ) (batches : List (α × Labels))
    (j : ℕ) (hj : j ≠ k) : ∀ s : TrainState P,
    (batches.foldl (trainStep E k) s).model.learners[j]? = s.model.learners[j]? := by
  induction batches with
  | nil => intro s; rfl
  | cons hd tl ih =>
      intro s
      rw [List.foldl_cons, ih, trainStep_learners_get E k s hd j hj]

lemma batchesFold_length (E : Env α P L) (k : ℕ) (batches : List (α × Labels)) :
    ∀ s : TrainState P,
    (batches.foldl (trainStep E k) s).model.learners.length = s.model.learners.length := by
  induction batches with
  | nil => intro s; rfl
  | cons hd tl ih =>
      intro s
      rw [List.foldl_cons, ih, trainStep_length]

lemma epochsFold_frame (E : Env α P L) (k : ℕ) (batches : List (α × Labels))
    (j : ℕ) (hj : j ≠ k) (l : List ℕ) : ∀ s : TrainState P,
    ((l.foldl (fun s' _ => batches.foldl (trainStep E k) s') s).model.learners[j]?
      = s.model.learners[j]?) := by
  induction l with
  | nil => intro s; rfl
  | cons hd tl ih =>
      intro s
      rw [List.foldl_cons, ih, batchesFold_frame E k batches j hj s]

lemma epochsFold_length (E : Env α P L) (k : ℕ) (batches : List (α × Labels))
    (l : List ℕ) : ∀ s : TrainState P,
    ((l.foldl (fun s' _ => batches.foldl (trainStep E k) s') s).model.learners.length
      = s.model.learners.length) := by
  induction l with
  | nil => intro s; rfl
  | cons hd tl ih =>
      intro s
      rw [List.foldl_cons, ih, batchesFold_length]

lemma trainLearner_length (E : Env α P L) (batches : List (α × Labels)) (k : ℕ)
    (s : TrainState P) :
    (trainLearner E batches k s).model.learners.length = s.model.learners.length := by
  unfold trainLearner
  exact epochsFold_length E k batches _ s

lemma seqFold_length (E : Env α P L) (batches : List (α × Labels)) (l : List ℕ) :
    ∀ s : TrainState P,
    ((l.foldl (fun s' k => trainLearner E batches k s') s).model.learners.length
      = s.model.learners.length) := by
  induction l with
  | nil => intro s; rfl
  | cons hd tl ih =>
      intro s
      rw [List.foldl_cons, ih, trainLearner_length]

/-- `fit` never adds to or removes from the learner sequence. -/
lemma fit_length (E : Env α P L) (batches : List (α × Labels)) (s : TrainState P) :
    (fit E batches s).model.learners.length = s.model.learners.length := by
  unfold fit
  exact seqFold_length E batches _ s

/-- The normal path of `__init__`: with every configuration key present, the
constructed ensemble is fully determined. -/
lemma initGBC_eq (E : Env α P L) (args : Args) (largs : L)
    (e d li n : ℕ) (r : ℝ) (cu : Bool)
    (he : args.epochs = some e) (hd : args.output_dim = some d)
    (hl : args.log_interval = some li) (hn : args.n_estimators = some n)
    (hs : args.shrinkage_rate = some r) (hc : args.cuda = some cu) :
    initGBC E args largs
      = .ok ⟨e, d, li, n, r,
          (List.range n).map (fun i => E.factory i (E.setOutputDim largs d))⟩ := by
  unfold initGBC
  rw [he, hd, hl, hn, hs, hc]
  rfl

end Lemmas

/-! ## Claim theorems -/

section Claims

variable {α P L : Type} [Inhabited P]

/-- C1: for every input batch `X`, label batch `y` and learner index `k`
with `k < n_estimators` (the number of learners), `_pseudo_residual (X, y, k)`
is one-hot(`y`) minus the row-wise softmax of the partial-ensemble logits —
the zero tensor for `k = 0` and otherwise the sum of
`shrinkage_rate * learner_i(X)` over `i ∈ [0, k)` (the sum over the empty
range being that zero tensor) — and the result has shape
`(B, output_dim)` with `B` the label-batch length. -/
theorem pseudo_residual_spec (E : Env α P L) (M : GradientBoostingClassifier P)
    (gm : Bool) (X : α) (y : Labels) (k : ℕ) (hk : k < M.learners.length) :
    (pseudo_residual E M gm X y k).val.rows = y.len ∧
    (pseudo_residual E M gm X y k).val.cols = M.output_dim ∧
    ∀ b j, (pseudo_residual E M gm X y k).val.entry b j
      = (onehot_coding M.output_dim y).entry b j
        - (Tensor.softmax ⟨y.len, M.output_dim,
            fun r c => ∑ i ∈ Finset.range k,
              M.shrinkage_rate * (E.run (M.learners.getD i default) X).entry r c⟩).entry b j := by
  refine ⟨?_, ?_, fun b j => ?_⟩
  · rw [pseudo_residual_val_eq]
    rfl
  · rw [pseudo_residual_val_eq]
    rfl
  · rw [pseudo_residual_val_eq]
    rfl

/-- C2: `forward` on a batch of batch-size `B` returns a tensor of shape
`(B, output_dim)` whose every entry is the sum, over the learners in
ascending index order, of `shrinkage_rate * learner(X)`; it is a pure
function of the ensemble (no side effects on the ensemble state). -/
theorem forward_spec (E : Env α P L) (M : GradientBoostingClassifier P)
    (gm : Bool) (X : α) :
    (forward E M gm X).val.rows = E.bsize X ∧
    (forward E M gm X).val.cols = M.output_dim ∧
    ∀ b j, (forward E M gm X).val.entry b j
      = (M.learners.map (fun p => M.shrinkage_rate * (E.run p X).entry b j)).sum := by
  unfold forward
  obtain ⟨hr, hc⟩ := enumFold_shape E M.shrinkage_rate gm X M.learners.enum
    (.const (Tensor.zeros (E.bsize X) M.output_dim))
  refine ⟨hr, hc, fun b j => ?_⟩
  rw [enumFold_entry]
  have hmap : M.learners.enum.map
      (fun ip => M.shrinkage_rate * (E.run ip.2 X).entry b j)
      = M.learners.map (fun p => M.shrinkage_rate * (E.run p X).entry b j) := by
    rw [show (fun ip : ℕ × P => M.shrinkage_rate * (E.run ip.2 X).entry b j)
        = (fun p => M.shrinkage_rate * (E.run p X).entry b j) ∘ Prod.snd from rfl,
      ← List.map_map, List.enum_map_snd]
  rw [hmap]
  simp [TTensor.const, Tensor.zeros]

/-- C5: for a label batch `y` whose entries lie in `[0, output_dim)`,
`_onehot_coding y` is a `(B, output_dim)` tensor whose row `i` has a `1`
exactly at column `y[i]` and `0` elsewhere, so each row sums to `1`; rows
are indexed in input batch order. -/
theorem onehot_coding_spec (d : ℕ) (y : Labels) (i : ℕ) (hi : i < y.len)
    (hy : ∀ b, b < y.len → y.val b < d) :
    (onehot_coding d y).rows = y.len ∧
    (onehot_coding d y).cols = d ∧
    (onehot_coding d y).entry i (y.val i) = 1 ∧
    (∀ j, j ≠ y.val i → (onehot_coding d y).entry i j = 0) ∧
    ∑ j ∈ Finset.range d, (onehot_coding d y).entry i j = 1 := by
  refine ⟨rfl, rfl, by simp [onehot_coding], fun j hj => by simp [onehot_coding, hj], ?_⟩
  exact onehot_rowsum d y i (hy i hi)

/-- C6: when `output_dim > 0`, the pseudo-residual for learner index `0` is
one-hot(`y`) minus the uniform distribution `1 / output_dim` in every
component, and for every learner index `k` and every row whose label is in
range, the row of the pseudo-residual sums to `0` (one-hot row minus a
softmax probability row). -/
theorem pseudo_residual_uniform_and_rowsum (E : Env α P L)
    (M : GradientBoostingClassifier P) (hd : 0 < M.output_dim) :
    (∀ gm X y b j, (pseudo_residual E M gm X y 0).val.entry b j
        = (onehot_coding M.output_dim y).entry b j - 1 / M.output_dim) ∧
    (∀ gm X y k b, y.val b < M.output_dim →
      ∑ j ∈ Finset.range M.output_dim, (pseudo_residual E M gm X y k).val.entry b j = 0) := by
  constructor
  · intro gm X y b j
    rw [pseudo_residual_val_eq]
    simp only [Tensor.sub, Tensor.softmax]
    rw [Finset.sum_range_zero, Real.exp_zero]
    simp [Finset.sum_congr, Finset.sum_const, Finset.card_range]
  · intro gm X y k b hb
    rw [pseudo_residual_val_eq]
    simp only [Tensor.sub]
    rw [Finset.sum_sub_distrib, onehot_rowsum M.output_dim y b hb,
      softmax_rowsum _ M.output_dim rfl hd b]
    ring

/-- C3: the whole training phase of learner `k` inside `fit` (optimizer
creation, and every gradient zeroing / backpropagation / optimizer step over
every epoch and batch) leaves the parameters of every learner with index
`j ≠ k` unchanged; only learner `k`'s entry of the learner list is ever
replaced. -/
theorem trainLearner_frame (E : Env α P L) (batches : List (α × Labels))
    (k j : ℕ) (s : TrainState P) (hj : j ≠ k) :
    (trainLearner E batches k s).model.learners[j]? = s.model.learners[j]? := by
  unfold trainLearner
  exact epochsFold_frame E k batches j hj _ s

/-- C3 witness. -/
theorem trainLearner_frame_witness :
    (0 : ℕ) ≠ 1 ∧
    (trainLearner cexEnv [cexBatch] 1 cexState).model.learners[0]?
      = cexState.model.learners[0]? :=
  ⟨by decide, trainLearner_frame cexEnv [cexBatch] 1 0 cexState (by decide)⟩

/-- C4 counterexample: training learner `1`, the pseudo-residual's forward
passes over learner `0` are NOT performed with gradient tracking disabled —
the residual's autograd graph is nonempty, and one training step of learner
`1` deposits a gradient into learner `0`'s buffer (the claim says no
gradient is deposited into any learner with index `< k`). -/
theorem residual_tracking_cex :
    (pseudo_residual cexEnv cexModel true () cexLabels 1).deps ≠ ∅ ∧
    (trainStep cexEnv 1 cexState cexBatch).grads 0 ≠ cexState.grads 0 := by
  constructor
  · rw [pseudo_residual_deps]
    decide
  · have hg : (trainStep cexEnv 1 cexState cexBatch).grads 0
        = (if 0 ∈ (({1} : Finset ℕ)
              ∪ (pseudo_residual cexEnv cexState.model true cexBatch.1 cexBatch.2 1).deps)
            then Function.update cexState.grads 1 0 0 + cexEnv.gradContrib 0
            else Function.update cexState.grads 1 0 0) := rfl
    rw [hg, pseudo_residual_deps, if_pos (by decide), Function.update_noteq (by decide)]
    show cexState.grads 0 + cexEnv.gradContrib 0 ≠ cexState.grads 0
    norm_num [cexState, cexEnv]

/-- C4 (amended): during a training step of learner `k`, the forward passes
of the earlier learners inside `_pseudo_residual` run with gradient
tracking enabled (the autograd graph of the residual is exactly the
learners `< k`), so backpropagating the loss deposits a gradient
contribution into every learner `j < k`; the parameters of those earlier
learners are nevertheless unchanged, because the optimizer is bound only to
learner `k`'s parameters. -/
theorem trainStep_grad_deposit (E : Env α P L) (k j : ℕ) (s : TrainState P)
    (b : α × Labels) (hj : j < k) :
    (pseudo_residual E s.model true b.1 b.2 k).deps = Finset.range k ∧
    (trainStep E k s b).grads j = s.grads j + E.gradContrib j ∧
    (trainStep E k s b).model.learners[j]? = s.model.learners[j]? := by
  refine ⟨pseudo_residual_deps E s.model b.1 b.2 k, ?_,
    trainStep_learners_get E k s b j (Nat.ne_of_lt hj)⟩
  have hg : (trainStep E k s b).grads j
      = (if j ∈ (({k} : Finset ℕ)
            ∪ (pseudo_residual E s.model true b.1 b.2 k).deps)
          then Function.update s.grads k 0 j + E.gradContrib j
          else Function.update s.grads k 0 j) := rfl
  rw [hg, pseudo_residual_deps,
    if_pos (Finset.mem_union_right _ (Finset.mem_range.mpr hj)),
    Function.update_noteq (Nat.ne_of_lt hj)]

/-- C4 (amended) witness. -/
theorem trainStep_grad_deposit_witness :
    (0 : ℕ) < 1 ∧
    ((pseudo_residual cexEnv cexState.model true cexBatch.1 cexBatch.2 1).deps
        = Finset.range 1 ∧
      (trainStep cexEnv 1 cexState cexBatch).grads 0
        = cexState.grads 0 + cexEnv.gradContrib 0 ∧
      (trainStep cexEnv 1 cexState cexBatch).model.learners[0]?
        = cexState.model.learners[0]?) :=
  ⟨by decide, trainStep_grad_deposit cexEnv 1 0 cexState cexBatch (by decide)⟩

/-- C7 counterexample: construction succeeds (returns an ensemble) although
`n_estimators = 0` and `output_dim = 0` — the claim says it must fail. -/
theorem initGBC_no_validation_cex :
    cexArgs.n_estimators = some 0 ∧ cexArgs.output_dim = some 0 ∧
    ∃ M, initGBC cexEnv cexArgs () = .ok M :=
  ⟨rfl, rfl, _, initGBC_eq cexEnv cexArgs () 1 0 1 0 1 false rfl rfl rfl rfl rfl rfl⟩

/-- C7 (amended): construction validates nothing.  With every configuration
key present it succeeds whatever the values — in particular with
`n_estimators ≤ 0` or non-positive `output_dim` — and it fails only when a
required key is absent: a missing `output_dim` raises `KeyError`, surfaced
to the caller. -/
theorem initGBC_validation (E : Env α P L) (args : Args) (largs : L)
    (he : args.epochs.isSome = true) (hl : args.log_interval.isSome = true)
    (hn : args.n_estimators.isSome = true) (hs : args.shrinkage_rate.isSome = true)
    (hc : args.cuda.isSome = true) :
    (∀ d, args.output_dim = some d → ∃ M, initGBC E args largs = .ok M) ∧
    (args.output_dim = none →
      initGBC E args largs = .error ("KeyError: " ++ "output_dim")) := by
  obtain ⟨e, he'⟩ := Option.isSome_iff_exists.mp he
  obtain ⟨li, hl'⟩ := Option.isSome_iff_exists.mp hl
  obtain ⟨n, hn'⟩ := Option.isSome_iff_exists.mp hn
  obtain ⟨r, hs'⟩ := Option.isSome_iff_exists.mp hs
  obtain ⟨cu, hc'⟩ := Option.isSome_iff_exists.mp hc
  constructor
  · intro d hd
    exact ⟨_, initGBC_eq E args largs e d li n r cu he' hd hl' hn' hs' hc'⟩
  · intro hd
    unfold initGBC
    rw [he', hd]
    rfl

/-- C7 (amended) witness. -/
theorem initGBC_validation_witness :
    (cexArgs.epochs.isSome = true ∧ cexArgs.log_interval.isSome = true ∧
      cexArgs.n_estimators.isSome = true ∧ cexArgs.shrinkage_rate.isSome = true ∧
      cexArgs.cuda.isSome = true) ∧
    ((∀ d, cexArgs.output_dim = some d → ∃ M, initGBC cexEnv cexArgs () = .ok M) ∧
      (cexArgs.output_dim = none →
        initGBC cexEnv cexArgs () = .error ("KeyError: " ++ "output_dim"))) :=
  ⟨⟨rfl, rfl, rfl, rfl, rfl⟩, initGBC_validation cexEnv cexArgs () rfl rfl rfl rfl rfl⟩

/-- C8: construction eagerly builds exactly `n_estimators` learner
instances by invoking the factory on the configuration with `output_dim`
injected; the learner sequence has length exactly `n_estimators`, and no
later operation reorders it, adds to it or removes from it: `fit` (the only
stateful operation — `forward`, `_pseudo_residual` and `evaluate` are pure
functions in this model) keeps the length, every one of its training steps
mutates the sequence only by an in-place replacement (`List.set`) at the
active learner's own index, and a whole training phase of learner `k`
leaves every other position unchanged. -/
theorem initGBC_learner_count (E : Env α P L) (args : Args) (largs : L)
    (e d li n : ℕ) (r : ℝ) (cu : Bool)
    (he : args.epochs = some e) (hd : args.output_dim = some d)
    (hl : args.log_interval = some li) (hn : args.n_estimators = some n)
    (hs : args.shrinkage_rate = some r) (hc : args.cuda = some cu) :
    ∃ M, initGBC E args largs = .ok M ∧
      M.learners.length = n ∧
      M.learners = (List.range n).map (fun i => E.factory i (E.setOutputDim largs d)) ∧
      (∀ batches (s : TrainState P), s.model = M →
        (fit E batches s).model.learners.length = n) ∧
      (∀ k (s : TrainState P) b, ∃ p,
        (trainStep E k s b).model.learners = s.model.learners.set k p) ∧
      (∀ batches k (s : TrainState P) j, j ≠ k →
        (trainLearner E batches k s).model.learners[j]? = s.model.learners[j]?) := by
  refine ⟨_, initGBC_eq E args largs e d li n r cu he hd hl hn hs hc, ?_, rfl, ?_, ?_, ?_⟩
  · simp
  · intro batches s hs'
    rw [fit_length, hs']
    simp
  · intro k s b
    exact trainStep_model_learners E k s b
  · intro batches k s j hj
    unfold trainLearner
    exact epochsFold_frame E k batches j hj _ s

/-- C8 witness. -/
theorem initGBC_learner_count_witness :
    (cexArgs.epochs = some 1 ∧ cexArgs.output_dim = some 0 ∧
      cexArgs.log_interval = some 1 ∧ cexArgs.n_estimators = some 0 ∧
      cexArgs.shrinkage_rate = some 1 ∧ cexArgs.cuda = some false) ∧
    ∃ M, initGBC cexEnv cexArgs () = .ok M ∧
      M.learners.length = 0 ∧
      M.learners = (List.range 0).map (fun i => cexEnv.factory i (cexEnv.setOutputDim () 0)) ∧
      (∀ batches (s : TrainState ℝ), s.model = M →
        (fit cexEnv batches s).model.learners.length = 0) ∧
      (∀ k (s : TrainState ℝ) b, ∃ p,
        (trainStep cexEnv k s b).model.learners = s.model.learners.set k p) ∧
      (∀ batches k (s : TrainState ℝ) j, j ≠ k →
        (trainLearner cexEnv batches k s).model.learners[j]? = s.model.learners[j]?) :=
  ⟨⟨rfl, rfl, rfl, rfl, rfl, rfl⟩,
    initGBC_learner_count cexEnv cexArgs () 1 0 1 0 1 false rfl rfl rfl rfl rfl rfl⟩

/-- C9: `evaluate` runs the whole pass with gradient tracking disabled
(every prediction has an empty autograd graph), computes each batch's
ensemble prediction with `predict`/`forward`, takes the arg-max class per
row, counts matches against the true labels, and the printed accuracy is
`100 * correct / len(dataset)`. -/
theorem evaluate_spec (E : Env α P L) (M : GradientBoostingClassifier P)
    (tl : DataLoader α) :
    evaluate E M tl
      = 100 * ((tl.batches.map (fun b => ∑ i ∈ Finset.range b.2.len,
            if (predict E M false b.1).val.argmaxRow i = b.2.val i then (1 : ℝ) else 0)).sum)
          / tl.dataset_len ∧
    ∀ b ∈ tl.batches, (predict E M false b.1).deps = ∅ := by
  constructor
  · show 100 * (tl.batches.foldl (fun c b => c + ∑ i ∈ Finset.range b.2.len,
        if (predict E M false b.1).val.argmaxRow i = b.2.val i then (1 : ℝ) else 0) 0)
        / tl.dataset_len = _
    rw [evalFold_eq, zero_add]
  · intro b _
    exact forward_deps_false E M b.1

/-- C10: with every configuration key present, construction succeeds for
every (non-negative) `n_estimators` value; with `n_estimators = 0` it
produces an ensemble with an empty learner sequence whose `forward` returns
the all-zero tensor of shape `(B, output_dim)` on every input batch. -/
theorem initGBC_zero_estimators (E : Env α P L) (args : Args) (largs : L)
    (e d li : ℕ) (r : ℝ) (cu : Bool)
    (he : args.epochs = some e) (hd : args.output_dim = some d)
    (hl : args.log_interval = some li) (hs : args.shrinkage_rate = some r)
    (hc : args.cuda = some cu) :
    (∀ n, args.n_estimators = some n → ∃ M, initGBC E args largs = .ok M) ∧
    (args.n_estimators = some 0 →
      ∃ M, initGBC E args largs = .ok M ∧ M.learners = [] ∧
        ∀ gm X, forward E M gm X
          = TTensor.const (Tensor.zeros (E.bsize X) M.output_dim)) := by
  constructor
  · intro n hn
    exact ⟨_, initGBC_eq E args largs e d li n r cu he hd hl hn hs hc⟩
  · intro hn
    exact ⟨_, initGBC_eq E args largs e d li 0 r cu he hd hl hn hs hc, rfl,
      fun gm X => rfl⟩

/-- C10 witness. -/
theorem initGBC_zero_estimators_witness :
    (cexArgs.epochs = some 1 ∧ cexArgs.output_dim = some 0 ∧
      cexArgs.log_interval = some 1 ∧ cexArgs.shrinkage_rate = some 1 ∧
      cexArgs.cuda = some false) ∧
    ((∀ n, cexArgs.n_estimators = some n → ∃ M, initGBC cexEnv cexArgs () = .ok M) ∧
      (cexArgs.n_estimators = some 0 →
        ∃ M, initGBC cexEnv cexArgs () = .ok M ∧ M.learners = [] ∧
          ∀ gm X, forward cexEnv M gm X
            = TTensor.const (Tensor.zeros (cexEnv.bsize X) M.output_dim))) :=
  ⟨⟨rfl, rfl, rfl, rfl, rfl⟩,
    initGBC_zero_estimators cexEnv cexArgs () 1 0 1 1 false rfl rfl rfl rfl rfl⟩

/-- C1 witness. -/
theorem pseudo_residual_spec_witness :
    1 < cexModel.learners.length ∧
    ((pseudo_residual cexEnv cexModel true () cexLabels 1).val.rows = cexLabels.len ∧
      (pseudo_residual cexEnv cexModel true () cexLabels 1).val.cols = cexModel.output_dim ∧
      ∀ b j, (pseudo_residual cexEnv cexModel true () cexLabels 1).val.entry b j
        = (onehot_coding cexModel.output_dim cexLabels).entry b j
          - (Tensor.softmax ⟨cexLabels.len, cexModel.output_dim,
              fun r c => ∑ i ∈ Finset.range 1,
                cexModel.shrinkage_rate
                  * (cexEnv.run (cexModel.learners.getD i default) ()).entry r c⟩).entry b j) :=
  ⟨by norm_num [cexModel],
    pseudo_residual_spec cexEnv cexModel true () cexLabels 1 (by norm_num [cexModel])⟩

/-- C5 witness. -/
theorem onehot_coding_spec_witness :
    (0 < cexLabels.len ∧ ∀ b, b < cexLabels.len → cexLabels.val b < 2) ∧
    ((onehot_coding 2 cexLabels).rows = cexLabels.len ∧
      (onehot_coding 2 cexLabels).cols = 2 ∧
      (onehot_coding 2 cexLabels).entry 0 (cexLabels.val 0) = 1 ∧
      (∀ j, j ≠ cexLabels.val 0 → (onehot_coding 2 cexLabels).entry 0 j = 0) ∧
      ∑ j ∈ Finset.range 2, (onehot_coding 2 cexLabels).entry 0 j = 1) :=
  ⟨⟨by norm_num [cexLabels], fun b _ => by norm_num [cexLabels]⟩,
    onehot_coding_spec 2 cexLabels 0 (by norm_num [cexLabels])
      (fun b _ => by norm_num [cexLabels])⟩

/-- C6 witness. -/
theorem pseudo_residual_uniform_and_rowsum_witness :
    0 < cexModel.output_dim ∧
    ((∀ gm X y b j, (pseudo_residual cexEnv cexModel gm X y 0).val.entry b j
        = (onehot_coding cexModel.output_dim y).entry b j - 1 / cexModel.output_dim) ∧
      (∀ gm X y k b, y.val b < cexModel.output_dim →
        ∑ j ∈ Finset.range cexModel.output_dim,
          (pseudo_residual cexEnv cexModel gm X y k).val.entry b j = 0)) :=
  ⟨by norm_num [cexModel],
    pseudo_residual_uniform_and_rowsum cexEnv cexModel (by norm_num [cexModel])⟩

end Claims

end Ensemble
